import Mathlib

/-!
A verification development for the `lineflow` dataset-composition core
(`lineflow/core.py`).  The four structural dataset classes (`Dataset`,
`ConcatDataset`, `MapDataset`, `CacheDataset`) are embedded as the inductive
type `Node`, whose constructors store exactly the fields the Python
constructors store: the aliased `_dataset` attribute (either a wrapped node or
a raw in-memory list), the flattened `_map_func_list`, and the `_cache`
snapshot.  The text-file-backed datasets (`SingleTextDataset`, `TextDataset`)
are embedded separately with a file modelled as its list of raw lines.
Python machine-level details are modelled as follows: list indexing with a
possibly negative index is `pyIndex`, `bisect.bisect` is `bisectRight`,
`itertools.accumulate` is `accumulate`, `slice.indices` is `sliceIndices`,
`range` is `pyRange`, `str.rstrip(os.linesep)` is `rstripNL` (POSIX line
separator), and the pickle round trip of `save`/`load` is modelled as the
identity on the materialized element list.
-/

namespace Lineflow

/-- Python list indexing `L[i]` for an `int` index: non-negative indices are
positional, negative indices count from the end, and anything out of range is
an `IndexError`, modelled as `none`. -/
def pyIndex {α : Type} (L : List α) (i : Int) : Option α :=
  if 0 ≤ i then L[i.toNat]?
  else if 0 ≤ i + (L.length : Int) then L[(i + (L.length : Int)).toNat]?
  else none

/-- The `for map_func in self._map_func_list: x = map_func(x)` loop of
`MapDataset`: apply the functions left to right. -/
def applyChain {α : Type} (fs : List (α → α)) (x : α) : α :=
  fs.foldl (fun acc f => f acc) x

/-- Helper for `accumulate`: running partial sums starting from `a`. -/
def accFrom : Nat → List Nat → List Nat
  | _, [] => []
  | a, x :: xs => (a + x) :: accFrom (a + x) xs

/-- `itertools.accumulate` on a list of naturals: the list of prefix sums
(without a leading zero), as used for `ConcatDataset._lengths`. -/
def accumulate (xs : List Nat) : List Nat := accFrom 0 xs

/-- `bisect.bisect` (right bisection) on a sorted list: the index of the first
element strictly greater than `x`; on the sorted cumulative tables used here a
linear characterization coincides with the binary search. -/
def bisectRight (l : List Nat) (x : Int) : Nat :=
  match l with
  | [] => 0
  | a :: rest => if x < (a : Int) then 0 else bisectRight rest x + 1

/-- The dataset-composition nodes of `lineflow/core.py`.  Each constructor
holds exactly the state the corresponding Python `__init__` leaves behind:
* `plain b` — `Dataset` with `_dataset = b` (a raw list, or a node such as a
  `ConcatDataset` that exposes itself through its `_dataset` property);
* `concatD ds` — `ConcatDataset` with `_datasets = ds`;
* `mapD b fs` — `MapDataset` with `_dataset = b` and `_map_func_list = fs`;
* `cacheD b fs snap` — `CacheDataset` with `_dataset = b`,
  `_map_func_list = fs` and `_cache = snap`. -/
inductive Node (α : Type) : Type where
  | plain : Node α ⊕ List α → Node α
  | concatD : List (Node α) → Node α
  | mapD : Node α ⊕ List α → List (α → α) → Node α
  | cacheD : Node α ⊕ List α → List (α → α) → List α → Node α

/-- The value of `d._dataset`: for `plain`, `mapD` and `cacheD` it is the
stored attribute; `ConcatDataset` exposes itself via its `_dataset`
property. -/
def underlyingOf {α : Type} : Node α → Node α ⊕ List α
  | .plain b => b
  | .concatD ds => .inl (.concatD ds)
  | .mapD b _ => b
  | .cacheD b _ _ => b

/-- `_map_func_list` when the node is a `MapDataset` (which includes
`CacheDataset`, a subclass), `none` otherwise: the `isinstance(d, MapDataset)`
test used by the `MapDataset` and `CacheDataset` constructors. -/
def funcListOf {α : Type} : Node α → Option (List (α → α))
  | .mapD _ fs => some fs
  | .cacheD _ fs _ => some fs
  | _ => none

/-- `Dataset.__init__`: wrapping an existing node aliases that node's
`_dataset` attribute; wrapping a raw list stores the list. -/
def datasetMk {α : Type} : Node α ⊕ List α → Node α
  | .inl d => .plain (underlyingOf d)
  | .inr L => .plain (.inr L)

/-- `MapDataset.__init__` (reached through `Dataset.map`): wrapping a
`MapDataset` appends the new function to a copy of the upstream's function
list, any other node starts a fresh singleton list; the stored `_dataset` is
the upstream's `_dataset` (set by `Dataset.__init__`). -/
def mapMk {α : Type} (d : Node α) (f : α → α) : Node α :=
  .mapD (underlyingOf d) ((funcListOf d).getD [] ++ [f])

/-- `CacheDataset.__init__`: inherit the function list of a `MapDataset`
upstream (copied, and never applied by the cache node), store the snapshot,
and alias the upstream's `_dataset` via `Dataset.__init__`.  Note that the
`_length = len(cache)` assignment is overwritten with `None` by the
subsequent `Dataset.__init__` call, so the length cache starts empty. -/
def cacheMk {α : Type} (d : Node α) (snap : List α) : Node α :=
  .cacheD (underlyingOf d) ((funcListOf d).getD []) snap

/-- `ConcatDataset(self, other)`, i.e. `Dataset.__add__`. -/
def addMk {α : Type} (d e : Node α) : Node α := .concatD [d, e]

mutual

/-- The value of `len(node)` (after the lazily cached `_length` is populated):
`Dataset.get_length` is `len(self._dataset)`, `ConcatDataset` computes the
total of its children's lengths at construction, `MapDataset` and
`CacheDataset` inherit `Dataset.get_length` (for `CacheDataset` the
construction-time `_length` is overwritten with `None`, so the lazily
computed value delegates to `_dataset`, not to the snapshot). -/
def nodeLen {α : Type} : Node α → Nat
  | .plain (.inl d) => nodeLen d
  | .plain (.inr L) => L.length
  | .concatD ds => sumLens ds
  | .mapD (.inl d) _ => nodeLen d
  | .mapD (.inr L) _ => L.length
  | .cacheD (.inl d) _ _ => nodeLen d
  | .cacheD (.inr L) _ _ => L.length

/-- Total length of a list of child nodes (`ConcatDataset._lengths[-1]`). -/
def sumLens {α : Type} : List (Node α) → Nat
  | [] => 0
  | d :: rest => nodeLen d + sumLens rest

end

/-- `len(self._dataset)` for an aliased `_dataset` attribute. -/
def baseLen {α : Type} : Node α ⊕ List α → Nat
  | .inl d => nodeLen d
  | .inr L => L.length

mutual

/-- `list(node)`: the sequence produced by each class's `__iter__`.
`Dataset` and `MapDataset` iterate `self._dataset` (the map node applying its
function chain to every element), `ConcatDataset` chains its children, and
`CacheDataset` yields the snapshot. -/
def iterN {α : Type} : Node α → List α
  | .plain (.inl d) => iterN d
  | .plain (.inr L) => L
  | .concatD ds => iterList ds
  | .mapD (.inl d) fs => (iterN d).map (applyChain fs)
  | .mapD (.inr L) fs => L.map (applyChain fs)
  | .cacheD _ _ snap => snap

/-- `ConcatDataset.__iter__`: `for d in self._datasets: yield from d`. -/
def iterList {α : Type} : List (Node α) → List α
  | [] => []
  | d :: rest => iterN d ++ iterList rest

end

/-- Iterating an aliased `_dataset` attribute. -/
def iterBase {α : Type} : Node α ⊕ List α → List α
  | .inl d => iterN d
  | .inr L => L

mutual

/-- `node[i]` for an `int` index `i`, i.e. each class's `get_example`:
* `Dataset.get_example`: `self._dataset[i]` (Python list indexing on a raw
  list, delegation for a wrapped node);
* `ConcatDataset.get_example`: `j = bisect(self._lengths, i)`, then
  `self._datasets[j][i - self._offsets[j]]` with
  `_lengths = accumulate(len(d) for d in ds)` and
  `_offsets = [0] + _lengths[:-1]` (an out-of-range `j` is an `IndexError`,
  modelled as `none`);
* `MapDataset.get_example`: fetch `self._dataset[i]`, then apply the chain;
* `CacheDataset.get_example`: `self._cache[i]`. -/
def getEx {α : Type} : Node α → Int → Option α
  | .plain (.inl d), i => getEx d i
  | .plain (.inr L), i => pyIndex L i
  | .concatD ds, i =>
    match (0 :: (accumulate (ds.map nodeLen)).dropLast)[bisectRight
        (accumulate (ds.map nodeLen)) i]? with
    | some off => childGet ds (bisectRight (accumulate (ds.map nodeLen)) i) (i - (off : Int))
    | none => none
  | .mapD (.inl d) fs, i => (getEx d i).map (applyChain fs)
  | .mapD (.inr L) fs, i => (pyIndex L i).map (applyChain fs)
  | .cacheD _ _ snap, i => pyIndex snap i

/-- `self._datasets[j][k]`: look up child `j` and delegate indexing to it
(`none` when `j` is out of range, an `IndexError` in Python). -/
def childGet {α : Type} : List (Node α) → Nat → Int → Option α
  | [], _, _ => none
  | d :: _, 0, k => getEx d k
  | _ :: rest, Nat.succ j, k => childGet rest j k

end

/-- `self._dataset[i]` on an aliased `_dataset` attribute. -/
def baseGet {α : Type} (b : Node α ⊕ List α) (i : Int) : Option α :=
  match b with
  | .inl d => getEx d i
  | .inr L => pyIndex L i

mutual

/-- Well-formedness of a node tree: every embedded `CacheDataset` snapshot is
the full drain of its upstream, exactly what `Dataset.save` produces (a
"drained snapshot" in the spec's terms).  All other nodes are unconstrained. -/
def WF {α : Type} : Node α → Prop
  | .plain (.inl d) => WF d
  | .plain (.inr _) => True
  | .concatD ds => WFList ds
  | .mapD (.inl d) _ => WF d
  | .mapD (.inr _) _ => True
  | .cacheD (.inl d) fs snap => WF d ∧ snap = (iterN d).map (applyChain fs)
  | .cacheD (.inr L) fs snap => snap = L.map (applyChain fs)

/-- All children of a `ConcatDataset` are well-formed. -/
def WFList {α : Type} : List (Node α) → Prop
  | [] => True
  | d :: rest => WF d ∧ WFList rest

end

/-- Well-formedness of an aliased `_dataset` attribute. -/
def WFBase {α : Type} : Node α ⊕ List α → Prop
  | .inl d => WF d
  | .inr _ => True

/-- `str.rstrip(os.linesep)` on a POSIX platform: remove every trailing
newline character. -/
def rstripNL (s : String) : String :=
  String.mk (s.data.reverse.dropWhile (fun c => c = '\n')).reverse

/-- `linecache.getline(path, n)` with a file modelled as its list of raw
lines: line numbers are 1-based, and any line number out of range (including
`n ≤ 0`) yields the empty string rather than an error. -/
def lineAt (lines : List String) (n : Int) : String :=
  if 1 ≤ n ∧ n ≤ (lines.length : Int) then (lines.getD (n - 1).toNat "") else ""

/-- `SingleTextDataset.get_example(i)`: `linecache.getline(path, i + 1)` with
the trailing line separator stripped.  Never fails: out-of-range indices give
the empty string. -/
def stGet (lines : List String) (i : Int) : String :=
  rstripNL (lineAt lines (i + 1))

/-- `SingleTextDataset.__iter__`: every line of the file with the trailing
line separator stripped. -/
def stIter (lines : List String) : List String :=
  lines.map rstripNL

/-- `SingleTextDataset.get_length`: the `mmap` line count, i.e. the number of
lines of the file. -/
def stLen (lines : List String) : Nat := lines.length

/-- One lockstep step of `zip`: the current first line of every file, or
`none` as soon as any file is exhausted. -/
def allHeads : List (List String) → Option (List String)
  | [] => some []
  | fl :: rest =>
    match fl.head?, allHeads rest with
    | some y, some ys => some (y :: ys)
    | _, _ => none

/-- `zip(*fps)` over a nonempty list of files (first file passed separately):
advance all files in lockstep and stop as soon as any file is exhausted. -/
def zipAll : List String → List (List String) → List (List String)
  | [], _ => []
  | x :: xs, rest =>
    match allHeads rest with
    | none => []
    | some hs => (x :: hs) :: zipAll xs (rest.map List.tail)

/-- `TextDataset.__iter__`: tuples (modelled as lists) of corresponding lines
across all files, each line stripped of its trailing line separator, stopping
at the first exhausted file. -/
def multiIter (files : List (List String)) : List (List String) :=
  match files with
  | [] => []
  | f :: rest => (zipAll f rest).map (fun tup => tup.map rstripNL)

/-- `TextDataset.get_example(i)`: the tuple of the stripped `i+1`-st line of
every file, each resolved independently via `linecache.getline`. -/
def multiGet (files : List (List String)) (i : Int) : List String :=
  files.map (fun fl => stGet fl i)

/-- `TextDataset.get_length`: the line count of the first file only. -/
def multiLen (files : List (List String)) : Nat :=
  (files.headD []).length

/-- The minimum line count over a nonempty list of files (`0` for none). -/
def minLens : List (List String) → Nat
  | [] => 0
  | [f] => f.length
  | f :: rest => min f.length (minLens rest)

/-- `slice(start, stop, step).indices(length)` for explicit integer
parameters, as computed by CPython (`step` is assumed nonzero): clamp `start`
and `stop` into the valid window for the sign of `step` after normalizing
negative values. -/
def sliceIndices (start stp step : Int) (length : Nat) : Int × Int × Int :=
  let lower : Int := if step < 0 then -1 else 0
  let upper : Int := if step < 0 then (length : Int) - 1 else (length : Int)
  let s := if start < 0 then max (start + (length : Int)) lower else min start upper
  let e := if stp < 0 then max (stp + (length : Int)) lower else min stp upper
  (s, e, step)

/-- Python `range(s, e, st)` as a list of integers (`st` nonzero). -/
def pyRange (s e st : Int) : List Int :=
  if 0 < st then
    (List.range ((e - s + st - 1) / st).toNat).map (fun k => s + st * k)
  else if st < 0 then
    (List.range ((s - e + (-st) - 1) / (-st)).toNat).map (fun k => s + st * k)
  else []

/-- `Dataset.__getitem__` with a slice argument: normalize the slice against
`len(self)` (a zero step is a `ValueError`, modelled as `none`) and collect
`get_example(i)` over the resulting range. -/
def getSlice {α : Type} (d : Node α) (start stp step : Int) :
    Option (List (Option α)) :=
  if step = 0 then none
  else
    some ((pyRange (sliceIndices start stp step (nodeLen d)).1
      (sliceIndices start stp step (nodeLen d)).2.1
      (sliceIndices start stp step (nodeLen d)).2.2).map (fun i => getEx d i))

/-- `Dataset.save(filename)`: drain `iterate()` into a snapshot, pickle it to
the file (the written blob is the first component; pickling is modelled as the
identity on the element list), and return a `CacheDataset` over the drained
snapshot. -/
def saveD {α : Type} (d : Node α) : List α × Node α :=
  (iterN d, cacheMk d (iterN d))

/-- `Dataset.load(filename)`: unpickle the blob and wrap it in a plain
`Dataset`. -/
def loadD {α : Type} (blob : List α) : Node α := datasetMk (.inr blob)

/-- The construction-time content of the `_length` cache: `ConcatDataset`
populates it eagerly with the total child length; every other node (including
`CacheDataset`, whose `_length = len(cache)` assignment is overwritten with
`None` by the `Dataset.__init__` it invokes afterwards) starts with an empty
cache. -/
def initLen {α : Type} : Node α → Option Nat
  | .concatD ds => some (sumLens ds)
  | _ => none

/-- One call of `Dataset.__len__` against an explicit `_length` cache state:
if the cache is empty, compute `get_length()` and store it; otherwise return
the cached value untouched. -/
def lenCall {α : Type} (d : Node α) (cached : Option Nat) : Nat × Option Nat :=
  match cached with
  | some n => (n, some n)
  | none => (nodeLen d, some (nodeLen d))

/-! ### Basic lemmas about the Python-builtin models -/

theorem pyIndex_natCast {α : Type} (L : List α) (i : Nat) :
    pyIndex L (i : Int) = L[i]? := by
  simp [pyIndex]

theorem applyChain_append {α : Type} (l1 l2 : List (α → α)) (x : α) :
    applyChain (l1 ++ l2) x = applyChain l2 (applyChain l1 x) :=
  List.foldl_append ..

theorem accumulate_cons (x : Nat) (xs : List Nat) :
    accumulate (x :: xs) = x :: accFrom x xs := by
  simp [accumulate, accFrom]

theorem accFrom_add (a b : Nat) (xs : List Nat) :
    accFrom (a + b) xs = (accFrom b xs).map (a + ·) := by
  induction xs generalizing b with
  | nil => rfl
  | cons x xs ih =>
    simp only [accFrom, List.map_cons, Nat.add_assoc]
    rw [ih]

theorem accFrom_eq_map (a : Nat) (xs : List Nat) :
    accFrom a xs = (accumulate xs).map (a + ·) := by
  simpa [accumulate] using accFrom_add a 0 xs

theorem accFrom_nil (a : Nat) : accFrom a [] = [] := rfl

theorem bisectRight_nil (x : Int) : bisectRight [] x = 0 := rfl

theorem bisectRight_cons (a : Nat) (l : List Nat) (x : Int) :
    bisectRight (a :: l) x = if x < (a : Int) then 0 else bisectRight l x + 1 := rfl

theorem childGet_cons_zero {α : Type} (d : Node α) (rest : List (Node α)) (k : Int) :
    childGet (d :: rest) 0 k = getEx d k := rfl

theorem childGet_cons_succ {α : Type} (d : Node α) (rest : List (Node α)) (j : Nat)
    (k : Int) : childGet (d :: rest) (j + 1) k = childGet rest j k := rfl

theorem bisectRight_map_add (a : Nat) (l : List Nat) (i : Int) :
    bisectRight (l.map (a + ·)) i = bisectRight l (i - (a : Int)) := by
  induction l with
  | nil => rfl
  | cons x xs ih =>
    simp only [List.map_cons, bisectRight, ih]
    have hiff : i < ((a + x : Nat) : Int) ↔ i - (a : Int) < (x : Int) := by
      push_cast
      omega
    by_cases h : i - (a : Int) < (x : Int)
    · rw [if_pos (hiff.mpr h), if_pos h]
    · rw [if_neg (fun hc => h (hiff.mp hc)), if_neg h]

/-! ### Unfolding lemmas for the node operations -/

theorem getEx_plain {α : Type} (b : Node α ⊕ List α) (i : Int) :
    getEx (Node.plain b) i = baseGet b i := by
  cases b <;> rfl

theorem getEx_mapD {α : Type} (b : Node α ⊕ List α) (fs : List (α → α)) (i : Int) :
    getEx (Node.mapD b fs) i = (baseGet b i).map (applyChain fs) := by
  cases b <;> rfl

theorem getEx_cacheD {α : Type} (b : Node α ⊕ List α) (fs : List (α → α))
    (snap : List α) (i : Int) : getEx (Node.cacheD b fs snap) i = pyIndex snap i := rfl

theorem iterN_plain {α : Type} (b : Node α ⊕ List α) :
    iterN (Node.plain b) = iterBase b := by
  cases b <;> rfl

theorem iterN_mapD {α : Type} (b : Node α ⊕ List α) (fs : List (α → α)) :
    iterN (Node.mapD b fs) = (iterBase b).map (applyChain fs) := by
  cases b <;> rfl

theorem nodeLen_plain {α : Type} (b : Node α ⊕ List α) :
    nodeLen (Node.plain b) = baseLen b := by
  cases b <;> rfl

theorem nodeLen_mapD {α : Type} (b : Node α ⊕ List α) (fs : List (α → α)) :
    nodeLen (Node.mapD b fs) = baseLen b := by
  cases b <;> rfl

theorem nodeLen_cacheD {α : Type} (b : Node α ⊕ List α) (fs : List (α → α))
    (snap : List α) : nodeLen (Node.cacheD b fs snap) = baseLen b := by
  cases b <;> rfl

/-! ### The index-resolution recurrence of `ConcatDataset.get_example` -/

theorem getEx_concat_nil {α : Type} (i : Int) :
    getEx (Node.concatD ([] : List (Node α))) i = none := rfl

theorem getEx_concat_cons {α : Type} (d : Node α) (rest : List (Node α)) (i : Int) :
    getEx (Node.concatD (d :: rest)) i =
      if i < (nodeLen d : Int) then getEx d i
      else getEx (Node.concatD rest) (i - (nodeLen d : Int)) := by
  by_cases h : i < (nodeLen d : Int)
  · rw [if_pos h]
    conv_lhs => rw [getEx]
    simp only [List.map_cons, accumulate_cons, bisectRight_cons]
    rw [if_pos h, List.getElem?_cons_zero]
    simp only [childGet_cons_zero, Nat.cast_zero, sub_zero]
  · rw [if_neg h]
    cases rest with
    | nil =>
      rw [getEx_concat_nil]
      conv_lhs => rw [getEx]
      simp only [List.map_cons, List.map_nil, accumulate_cons, accFrom_nil,
        List.dropLast_single, bisectRight_cons, bisectRight_nil, if_neg h,
        List.getElem?_cons_succ, List.getElem?_nil]
    | cons r rs =>
      conv_lhs => rw [getEx]
      conv_rhs => rw [getEx]
      simp only [List.map_cons]
      rw [accumulate_cons (nodeLen d)]
      simp only [bisectRight_cons]
      rw [if_neg h, accFrom_eq_map, bisectRight_map_add]
      have hne : ((accumulate (nodeLen r :: rs.map nodeLen)).map ((nodeLen d) + ·)) ≠ [] := by
        simp [accumulate_cons]
      rw [List.dropLast_cons_of_ne_nil hne, List.getElem?_cons_succ, ← List.map_dropLast]
      have hcons : (nodeLen d :: ((accumulate (nodeLen r :: rs.map nodeLen)).dropLast).map
            ((nodeLen d) + ·))
          = ((0 :: (accumulate (nodeLen r :: rs.map nodeLen)).dropLast).map
            ((nodeLen d) + ·)) := by
        simp
      rw [hcons, List.getElem?_map]
      simp only [childGet_cons_succ]
      cases hoff : (0 :: (accumulate (nodeLen r :: rs.map nodeLen)).dropLast)[bisectRight
          (accumulate (nodeLen r :: rs.map nodeLen)) (i - (nodeLen d : Int))]? with
      | none => rfl
      | some off =>
        simp only [Option.map_some']
        have harith : i - ((nodeLen d + off : Nat) : Int) = i - (nodeLen d : Int) - (off : Int) := by
          push_cast
          ring
        rw [harith]

/-! ### Iteration length agrees with the reported length on well-formed trees -/

mutual

theorem lenIter {α : Type} : ∀ (d : Node α), WF d → (iterN d).length = nodeLen d
  | .plain (.inl d), h => by
    have ih := lenIter d (by simpa [WF] using h)
    simpa [iterN, nodeLen] using ih
  | .plain (.inr L), _ => rfl
  | .concatD ds, h => by
    have ih := lenIterList ds (by simpa [WF] using h)
    simpa [iterN, nodeLen] using ih
  | .mapD (.inl d) fs, h => by
    have ih := lenIter d (by simpa [WF] using h)
    simpa [iterN, nodeLen] using ih
  | .mapD (.inr L) _, _ => by simp [iterN, nodeLen]
  | .cacheD (.inl d) fs snap, h => by
    have hs : snap = (iterN d).map (applyChain fs) := by
      have := (by simpa [WF] using h : WF d ∧ snap = (iterN d).map (applyChain fs))
      exact this.2
    have ih := lenIter d (by
      have := (by simpa [WF] using h : WF d ∧ snap = (iterN d).map (applyChain fs))
      exact this.1)
    simp [iterN, nodeLen, hs, ih]
  | .cacheD (.inr L) fs snap, h => by
    have hs : snap = L.map (applyChain fs) := by simpa [WF] using h
    simp [iterN, nodeLen, hs]

theorem lenIterList {α : Type} :
    ∀ (ds : List (Node α)), WFList ds → (iterList ds).length = sumLens ds
  | [], _ => rfl
  | d :: rest, h => by
    have h' := (by simpa [WFList] using h : WF d ∧ WFList rest)
    have ih1 := lenIter d h'.1
    have ih2 := lenIterList rest h'.2
    simp [iterList, sumLens, ih1, ih2]

end

/-! ### `get_example` agrees with iteration on well-formed trees (Sequence
Core contract) -/

mutual

theorem getIter {α : Type} :
    ∀ (d : Node α), WF d → ∀ (i : Nat), getEx d (i : Int) = (iterN d)[i]?
  | .plain (.inl d), h, i => by
    have ih := getIter d (by simpa [WF] using h) i
    simpa [getEx, iterN] using ih
  | .plain (.inr L), _, i => by
    simpa [getEx, iterN] using pyIndex_natCast L i
  | .concatD ds, h, i => getIterList ds (by simpa [WF] using h) i
  | .mapD (.inl d) fs, h, i => by
    have ih := getIter d (by simpa [WF] using h) i
    simp [getEx, iterN, ih, List.getElem?_map]
  | .mapD (.inr L) fs, _, i => by
    simp [getEx, iterN, pyIndex_natCast, List.getElem?_map]
  | .cacheD b fs snap, _, i => by
    cases b <;> simpa [getEx, iterN] using pyIndex_natCast snap i

theorem getIterList {α : Type} :
    ∀ (ds : List (Node α)), WFList ds → ∀ (i : Nat),
      getEx (Node.concatD ds) (i : Int) = (iterList ds)[i]?
  | [], _, i => by simp [getEx_concat_nil, iterList]
  | d :: rest, h, i => by
    have h' := (by simpa [WFList] using h : WF d ∧ WFList rest)
    rw [getEx_concat_cons]
    by_cases hc : (i : Int) < (nodeLen d : Int)
    · rw [if_pos hc, getIter d h'.1 i]
      have hl : i < (iterN d).length := by
        rw [lenIter d h'.1]
        exact_mod_cast hc
      rw [iterList, List.getElem?_append_left hl]
    · rw [if_neg hc]
      have hle : nodeLen d ≤ i := by exact_mod_cast not_lt.mp hc
      have hsub : (i : Int) - (nodeLen d : Int) = ((i - nodeLen d : Nat) : Int) := by
        push_cast [hle]
        ring
      rw [hsub, getIterList rest h'.2 (i - nodeLen d), iterList]
      have hl : (iterN d).length ≤ i := by
        rw [lenIter d h'.1]
        exact hle
      rw [List.getElem?_append_right hl, lenIter d h'.1]

end

/-- `self._dataset[i]` agrees with position `i` of iterating `self._dataset`,
for a well-formed aliased `_dataset` attribute. -/
theorem baseGetIter {α : Type} (b : Node α ⊕ List α) (h : WFBase b) (i : Nat) :
    baseGet b (i : Int) = (iterBase b)[i]? := by
  cases b with
  | inl d => exact getIter d (by simpa [WFBase] using h) i
  | inr L => exact pyIndex_natCast L i

/-- Any well-formed node's `get_example(i)` is the result of applying its
(possibly empty) flattened function chain to `self._dataset[i]`. -/
theorem getEx_eq_chain {α : Type} (u : Node α) (h : WF u) (i : Nat) :
    getEx u (i : Int)
      = (baseGet (underlyingOf u) (i : Int)).map (applyChain ((funcListOf u).getD [])) := by
  cases u with
  | plain b =>
    rw [getEx_plain]
    cases hb : baseGet b (i : Int) <;>
      simp [underlyingOf, funcListOf, applyChain, hb]
  | concatD ds =>
    cases hb : getEx (Node.concatD ds) (i : Int) <;>
      simp [underlyingOf, funcListOf, applyChain, baseGet, hb]
  | mapD b fs =>
    rw [getEx_mapD]
    rfl
  | cacheD b fs snap =>
    cases b with
    | inl d =>
      have h' := (by simpa [WF] using h : WF d ∧ snap = (iterN d).map (applyChain fs))
      rw [getEx_cacheD, pyIndex_natCast, h'.2, List.getElem?_map]
      show _ = (baseGet (Sum.inl d) (i : Int)).map (applyChain fs)
      rw [show baseGet (Sum.inl d) ((i : Nat) : Int) = getEx d (i : Int) from rfl,
        getIter d h'.1 i]
    | inr L =>
      have hs : snap = L.map (applyChain fs) := by simpa [WF] using h
      rw [getEx_cacheD, pyIndex_natCast, hs, List.getElem?_map]
      show _ = (baseGet (Sum.inr L) (i : Int)).map (applyChain fs)
      rw [show baseGet (Sum.inr L) ((i : Nat) : Int) = pyIndex L (i : Int) from rfl,
        pyIndex_natCast]

/-! ### Claim theorems -/

/-- Claim C3: a `ConcatDataset` of `S1` and `S2` has length
`len(S1) + len(S2)`; `get(i)` resolves to `S1.get(i)` for `i < len(S1)` and
to `S2.get(i - len(S1))` for `len(S1) ≤ i < len(S1) + len(S2)`, via the
bisection over the cumulative-length table. -/
theorem concat_two_resolves {α : Type} (S1 S2 : Node α) (i : Nat) :
    nodeLen (addMk S1 S2) = nodeLen S1 + nodeLen S2
  ∧ (i < nodeLen S1 → getEx (addMk S1 S2) (i : Int) = getEx S1 (i : Int))
  ∧ (nodeLen S1 ≤ i → i < nodeLen S1 + nodeLen S2 →
      getEx (addMk S1 S2) (i : Int) = getEx S2 ((i - nodeLen S1 : Nat) : Int)) := by
  refine ⟨by simp [addMk, nodeLen, sumLens], ?_, ?_⟩
  · intro h
    rw [addMk, getEx_concat_cons, if_pos (by exact_mod_cast h)]
  · intro h1 h2
    rw [addMk, getEx_concat_cons, if_neg (by omega), getEx_concat_cons,
      if_pos (by omega), Nat.cast_sub h1]

/-- Claim C3 witness. -/
theorem concat_two_resolves_witness :
    nodeLen (Node.plain (Sum.inr ([10, 20] : List Nat))) ≤ 3
  ∧ 3 < nodeLen (Node.plain (Sum.inr ([10, 20] : List Nat)))
      + nodeLen (Node.plain (Sum.inr ([30, 40, 50] : List Nat)))
  ∧ getEx (addMk (Node.plain (Sum.inr ([10, 20] : List Nat)))
        (Node.plain (Sum.inr ([30, 40, 50] : List Nat)))) ((3 : Nat) : Int)
      = getEx (Node.plain (Sum.inr ([30, 40, 50] : List Nat)))
          (((3 - nodeLen (Node.plain (Sum.inr ([10, 20] : List Nat))) : Nat)) : Int) :=
  ⟨by decide, by decide,
    (concat_two_resolves (Node.plain (Sum.inr [10, 20]))
      (Node.plain (Sum.inr [30, 40, 50])) 3).2.2 (by decide) (by decide)⟩

/-- Claim C2: two successive `map` calls compose: `get(i)` applies `g` after
`f` to the upstream's element; the composite node is the same whether built
in one wrapping step (with the composed function) or two; and the two-step
build flattens into a single function list with `g` appended to a copy of the
upstream's list (the upstream node is a pure value here, so it is never
mutated). -/
theorem map_map_flattens {α : Type} (u : Node α) (f g : α → α) (i : Nat)
    (hWF : WF u) (_hi : i < nodeLen u) :
    getEx (mapMk (mapMk u f) g) (i : Int) = (getEx u (i : Int)).map (fun x => g (f x))
  ∧ (∀ j : Int, getEx (mapMk (mapMk u f) g) j = getEx (mapMk u (fun x => g (f x))) j)
  ∧ funcListOf (mapMk (mapMk u f) g) = some ((funcListOf u).getD [] ++ [f] ++ [g]) := by
  refine ⟨?_, ?_, rfl⟩
  · have e1 : mapMk (mapMk u f) g
        = Node.mapD (underlyingOf u) (((funcListOf u).getD [] ++ [f]) ++ [g]) := rfl
    rw [e1, getEx_mapD, getEx_eq_chain u hWF i, Option.map_map]
    congr 1
    funext x
    simp [applyChain_append, applyChain, Function.comp]
  · intro j
    have e1 : mapMk (mapMk u f) g
        = Node.mapD (underlyingOf u) (((funcListOf u).getD [] ++ [f]) ++ [g]) := rfl
    have e2 : mapMk u (fun x => g (f x))
        = Node.mapD (underlyingOf u) ((funcListOf u).getD [] ++ [fun x => g (f x)]) := rfl
    rw [e1, e2, getEx_mapD, getEx_mapD]
    congr 1
    funext x
    simp [applyChain_append, applyChain]

/-- Claim C2 witness: `[3]` mapped through doubling then increment yields `7`
at index `0`. -/
theorem map_map_flattens_witness :
    WF (Node.plain (Sum.inr ([3] : List Nat)))
  ∧ 0 < nodeLen (Node.plain (Sum.inr ([3] : List Nat)))
  ∧ getEx (mapMk (mapMk (Node.plain (Sum.inr ([3] : List Nat))) (fun x => x * 2))
      (fun x => x + 1)) ((0 : Nat) : Int) = some 7 :=
  ⟨trivial, by decide,
    ((map_map_flattens (Node.plain (Sum.inr [3])) (fun x => x * 2) (fun x => x + 1) 0
      trivial (by decide)).1).trans (by decide)⟩

/-- Claim C4: a `CacheDataset` built over any upstream serves `get_example`
and `__iter__` directly from its snapshot; the statement holds for every
inherited function list (implicit in `cacheMk d`), so no inherited function
is applied on either access path. -/
theorem cache_reads_snapshot {α : Type} (d : Node α) (snap : List α) (i : Nat) :
    getEx (cacheMk d snap) (i : Int) = snap[i]?
  ∧ iterN (cacheMk d snap) = snap := by
  constructor
  · rw [cacheMk, getEx_cacheD, pyIndex_natCast]
  · rw [cacheMk]
    rfl

/-- Claim C6: the persist/restore round trip.  `save` drains the node,
serializes the drained sequence (pickling modelled as the identity on the
element list), and returns a `CacheDataset` over that same drained sequence;
`load` of the written blob is a plain `Dataset` whose iteration reproduces
the original element sequence. -/
theorem save_load_round_trip {α : Type} (d : Node α) :
    iterN (loadD (saveD d).1) = iterN d
  ∧ (saveD d).2 = cacheMk d (iterN d)
  ∧ iterN (saveD d).2 = iterN d :=
  ⟨rfl, rfl, rfl⟩

/-- Claim C9: the `_length` cache protocol of `__len__`.  Starting from the
construction-time cache state, the first call returns `get_length()` and
stores it; any call on a populated cache returns the cached value unchanged
(for every cached value `n`, showing nothing recomputes or overwrites it);
nodes are immutable values, so no other operation touches the cache. -/
theorem length_idempotent_write_once {α : Type} (d : Node α) :
    (lenCall d (initLen d)).1 = nodeLen d
  ∧ (lenCall d (initLen d)).2 = some (nodeLen d)
  ∧ ∀ n, lenCall d (some n) = (n, some n) := by
  refine ⟨?_, ?_, fun n => rfl⟩ <;> cases d <;> simp [initLen, lenCall, nodeLen]

/-- A concrete `MapDataset` over the raw list `[1, 2, 3]` with a single
increment transform. -/
def mapExample : Node Nat := Node.mapD (Sum.inr [1, 2, 3]) [fun x => x + 1]

/-- Claim C10: `Dataset(m)` for a `MapDataset` `m` aliases `m._dataset` (the
raw underlying source), so its `get_example` bypasses `m`'s transform chain:
in general it returns the raw element, and concretely at index `0` of
`[1, 2, 3]` with an increment chain it returns `1` while `m.get_example(0)`
returns `2`. -/
theorem plain_wrap_aliases_raw_source :
    (∀ (α : Type) (b : Node α ⊕ List α) (fs : List (α → α)) (i : Int),
        getEx (datasetMk (Sum.inl (Node.mapD b fs))) i = baseGet b i)
  ∧ getEx (datasetMk (Sum.inl mapExample)) 0 = some 1
  ∧ getEx mapExample 0 = some 2 :=
  ⟨fun _ b _ i => getEx_plain b i, by decide, by decide⟩

/-! ### Text-dataset lemmas -/

theorem stGet_lt (lines : List String) (i : Nat) (h : i < lines.length) :
    stGet lines (i : Int) = rstripNL (lines.getD i "") := by
  unfold stGet lineAt
  rw [if_pos ⟨by omega, by exact_mod_cast h⟩]
  congr 1
  have : ((i : Int) + 1 - 1).toNat = i := by omega
  rw [this]

theorem stIter_get (lines : List String) (i : Nat) (h : i < lines.length) :
    (stIter lines)[i]? = some (rstripNL (lines.getD i "")) := by
  unfold stIter
  rw [List.getElem?_map, List.getElem?_eq_getElem h, Option.map_some']
  have hg : lines.getD i "" = lines[i] := List.getD_eq_getElem lines "" h
  rw [hg]

/-! ### Claim C5 -/

/-- Claim C5 counterexample: `Dataset([10,20,30]).get_example(-1)` succeeds
with the last element (Python negative indexing) instead of failing, and a
single-file text dataset returns the empty string past its line count instead
of failing. -/
theorem get_out_of_range_counterexample :
    getEx (Node.plain (Sum.inr ([10, 20, 30] : List Nat))) (-1) = some 30
  ∧ stGet ["a\n", "b\n"] 5 = "" := by
  exact ⟨rfl, rfl⟩

/-- Claim C5 (amended): a raw-list-backed `Dataset` fails with `IndexError`
exactly when `i ≥ length` or `i < -length`; for `-length ≤ i < 0` it returns
the element at `length + i` (Python negative indexing); a single-file text
dataset never fails on an out-of-range index and returns the empty string for
every `i < 0` or `i ≥ line count`. -/
theorem get_out_of_range_amended :
    (∀ (α : Type) (L : List α) (i : Int),
        ((L.length : Int) ≤ i ∨ i < -(L.length : Int)) →
          getEx (Node.plain (Sum.inr L)) i = none)
  ∧ (∀ (α : Type) (L : List α) (i : Int), -(L.length : Int) ≤ i → i < 0 →
        getEx (Node.plain (Sum.inr L)) i = L[(i + (L.length : Int)).toNat]?)
  ∧ (∀ (lines : List String) (i : Int), ((lines.length : Int) ≤ i ∨ i < 0) →
        stGet lines i = "") := by
  refine ⟨?_, ?_, ?_⟩
  · intro α L i h
    rw [getEx_plain]
    show pyIndex L i = none
    unfold pyIndex
    split_ifs with h1 h2
    · exact List.getElem?_eq_none (by omega)
    · omega
    · rfl
  · intro α L i h1 h2
    rw [getEx_plain]
    show pyIndex L i = L[(i + (L.length : Int)).toNat]?
    unfold pyIndex
    split_ifs with ha hb
    · omega
    · rfl
    · omega
  · intro lines i h
    unfold stGet lineAt
    rw [if_neg (by omega)]
    rfl

/-- Claim C5 witness for the amended claim. -/
theorem get_out_of_range_amended_witness :
    ((([10, 20] : List Nat).length : Int) ≤ 5 ∨ (5 : Int) < -(([10, 20] : List Nat).length : Int))
  ∧ getEx (Node.plain (Sum.inr ([10, 20] : List Nat))) 5 = none
  ∧ getEx (Node.plain (Sum.inr ([10, 20] : List Nat))) (-2)
      = ([10, 20] : List Nat)[((-2) + (([10, 20] : List Nat).length : Int)).toNat]?
  ∧ stGet ["a\n"] 3 = "" :=
  ⟨Or.inl (by decide),
    get_out_of_range_amended.1 Nat [10, 20] 5 (Or.inl (by decide)),
    get_out_of_range_amended.2.1 Nat [10, 20] (-2) (by decide) (by decide),
    get_out_of_range_amended.2.2 ["a\n"] 3 (Or.inl (by decide))⟩

/-! ### Claim C7 -/

/-- Claim C7: slicing law.  For a nonzero step, `S[start:stop:step]` is the
list of `get_example(i)` over `range(*slice(start, stop, step).indices(len(S)))`,
for all slice parameters including negative indices and negative steps. -/
theorem slice_law {α : Type} (d : Node α) (start stp step : Int) (h : step ≠ 0) :
    getSlice d start stp step
      = some ((pyRange (sliceIndices start stp step (nodeLen d)).1
          (sliceIndices start stp step (nodeLen d)).2.1
          (sliceIndices start stp step (nodeLen d)).2.2).map (fun i => getEx d i)) := by
  unfold getSlice
  rw [if_neg h]

/-- Claim C7 witness: a negative start, stop and step on `[10, 20, 30, 40]`
yields elements `40` and `20`. -/
theorem slice_law_witness :
    (-2 : Int) ≠ 0
  ∧ getSlice (Node.plain (Sum.inr ([10, 20, 30, 40] : List Nat))) (-1) (-5) (-2)
      = some [some 40, some 20] :=
  ⟨by decide,
    (slice_law (Node.plain (Sum.inr [10, 20, 30, 40])) (-1) (-5) (-2)
      (by decide)).trans (by decide)⟩

/-! ### Lockstep-zip lemmas for the multi-file text dataset -/

theorem headD_eq_getD_zero (fl : List String) : fl.headD "" = fl.getD 0 "" := by
  cases fl <;> rfl

theorem getD_succ_tail (fl : List String) (i : Nat) :
    fl.getD (i + 1) "" = fl.tail.getD i "" := by
  cases fl <;> simp

theorem head?_some_facts (fl : List String) (y : String) (h : fl.head? = some y) :
    fl ≠ [] ∧ fl.headD "" = y := by
  cases fl <;> simp_all

theorem allHeads_spec :
    ∀ (rest : List (List String)) (hs : List String),
      allHeads rest = some hs →
      (∀ fl ∈ rest, fl ≠ []) ∧ hs = rest.map (fun fl => fl.headD "")
  | [], hs, h => by
    simp only [allHeads, Option.some.injEq] at h
    subst h
    exact ⟨by simp, by simp⟩
  | fl :: rest, hs, h => by
    rw [allHeads] at h
    cases hfl : fl.head? with
    | none => rw [hfl] at h; simp at h
    | some y =>
      rw [hfl] at h
      cases hr : allHeads rest with
      | none => rw [hr] at h; simp at h
      | some ys =>
        rw [hr] at h
        simp only [Option.some.injEq] at h
        obtain ⟨hne, hmap⟩ := allHeads_spec rest ys hr
        subst h
        refine ⟨?_, ?_⟩
        · intro g hg
          rcases List.mem_cons.mp hg with hg | hg
          · exact hg ▸ (head?_some_facts fl y hfl).1
          · exact hne g hg
        · rw [List.map_cons, ← hmap, (head?_some_facts fl y hfl).2]

theorem allHeads_none :
    ∀ (rest : List (List String)), allHeads rest = none → [] ∈ rest
  | [], h => by simp [allHeads] at h
  | fl :: rest, h => by
    rw [allHeads] at h
    cases hfl : fl.head? with
    | none =>
      have : fl = [] := List.head?_eq_none_iff.mp hfl
      exact this ▸ List.mem_cons_self fl rest
    | some y =>
      rw [hfl] at h
      cases hr : allHeads rest with
      | none => exact List.mem_cons_of_mem fl (allHeads_none rest hr)
      | some ys => rw [hr] at h; simp at h

theorem minLens_eq_zero_of_mem :
    ∀ (rest : List (List String)), [] ∈ rest → minLens rest = 0
  | [fl], h => by
    simp only [List.mem_singleton] at h
    subst h
    rfl
  | fl :: s :: ss, h => by
    rcases List.mem_cons.mp h with h | h
    · simp [minLens, ← h]
    · simp [minLens, minLens_eq_zero_of_mem (s :: ss) h]

theorem minLens_tails :
    ∀ (rest : List (List String)), (∀ fl ∈ rest, fl ≠ []) →
      rest ≠ [] → minLens (rest.map List.tail) + 1 = minLens rest
  | [], _, hne => absurd rfl hne
  | [r], h, _ => by
    have hr : r ≠ [] := h r (List.mem_singleton_self r)
    cases r with
    | nil => exact absurd rfl hr
    | cons a as => simp [minLens]
  | r :: s :: ss, h, _ => by
    have hr : r ≠ [] := h r (List.mem_cons_self r (s :: ss))
    have ih := minLens_tails (s :: ss) (fun fl hfl => h fl (List.mem_cons_of_mem r hfl))
      (by simp)
    cases r with
    | nil => exact absurd rfl hr
    | cons a as =>
      simp only [List.map_cons, minLens, List.tail_cons, List.length_cons] at ih ⊢
      omega

theorem zipAll_length :
    ∀ (f : List String) (rest : List (List String)),
      (zipAll f rest).length = minLens (f :: rest)
  | [], rest => by
    cases rest with
    | nil => rfl
    | cons r rs => simp [zipAll, minLens]
  | x :: xs, rest => by
    cases hH : allHeads rest with
    | none =>
      cases rest with
      | nil => simp [allHeads] at hH
      | cons r rs =>
        have hmem : [] ∈ r :: rs := allHeads_none (r :: rs) hH
        simp [zipAll, hH, minLens, minLens_eq_zero_of_mem (r :: rs) hmem]
    | some hs =>
      have hne := (allHeads_spec rest hs hH).1
      have ih := zipAll_length xs (rest.map List.tail)
      cases rest with
      | nil =>
        simp only [List.map_nil, minLens] at ih
        simp [zipAll, hH, ih, minLens]
      | cons r rs =>
        have htails := minLens_tails (r :: rs) hne (by simp)
        rw [show zipAll (x :: xs) (r :: rs) = (x :: hs) :: zipAll xs ((r :: rs).map List.tail)
          from by simp [zipAll, hH]]
        rw [List.length_cons, ih, List.map_cons]
        rw [show minLens (xs :: r.tail :: rs.map List.tail)
          = min xs.length (minLens (r.tail :: rs.map List.tail)) from rfl]
        rw [show minLens ((x :: xs) :: r :: rs) = min (x :: xs).length (minLens (r :: rs))
          from rfl]
        rw [List.map_cons] at htails
        simp only [List.length_cons]
        omega

theorem zipAll_get :
    ∀ (f : List String) (rest : List (List String)) (i : Nat),
      i < (zipAll f rest).length →
      (zipAll f rest)[i]? = some (f.getD i "" :: rest.map (fun fl => fl.getD i ""))
  | [], _, i, h => by simp [zipAll] at h
  | x :: xs, rest, i, h => by
    cases hH : allHeads rest with
    | none => simp [zipAll, hH] at h
    | some hs =>
      obtain ⟨hne, hmap⟩ := allHeads_spec rest hs hH
      cases i with
      | zero =>
        simp only [zipAll, hH, List.getElem?_cons_zero, List.getD_cons_zero,
          Option.some.injEq, List.cons.injEq, true_and]
        rw [hmap]
        exact List.map_congr_left fun fl _ => headD_eq_getD_zero fl
      | succ i' =>
        have h' : i' < (zipAll xs (rest.map List.tail)).length := by
          simp only [zipAll, hH, List.length_cons] at h
          omega
        simp only [zipAll, hH, List.getElem?_cons_succ, zipAll_get xs (rest.map List.tail) i' h',
          List.getD_cons_succ, Option.some.injEq, List.cons.injEq, true_and, List.map_map]
        exact List.map_congr_left fun fl _ => (getD_succ_tail fl i').symm

theorem multiIter_length (files : List (List String)) (h : files ≠ []) :
    (multiIter files).length = minLens files := by
  cases files with
  | nil => exact absurd rfl h
  | cons f rest => simp [multiIter, zipAll_length]

theorem multiIter_get (files : List (List String)) (h : files ≠ []) (i : Nat)
    (hi : i < minLens files) :
    (multiIter files)[i]? = some (files.map (fun fl => rstripNL (fl.getD i ""))) := by
  cases files with
  | nil => exact absurd rfl h
  | cons f rest =>
    have hlen : i < (zipAll f rest).length := by rw [zipAll_length]; exact hi
    simp only [multiIter, List.getElem?_map, zipAll_get f rest i hlen, Option.map_some',
      List.map_cons, List.map_map]
    rfl

/-! ### Claim C8 -/

/-- Claim C8: multi-file lockstep iteration.  `TextDataset.__iter__` yields
exactly `min`-over-files many tuples, the `i`-th being the stripped `i`-th
lines of all the files in order, and `get_length` reads the line count of the
first file only. -/
theorem text_lockstep_iteration (files : List (List String)) (h : files ≠ []) :
    (multiIter files).length = minLens files
  ∧ (∀ i : Nat, i < minLens files →
      (multiIter files)[i]? = some (files.map (fun fl => rstripNL (fl.getD i ""))))
  ∧ multiLen files = (files.headD []).length :=
  ⟨multiIter_length files h, fun i hi => multiIter_get files h i hi, rfl⟩

/-- Claim C8 witness: files of 2 and 3 lines produce exactly 2 tuples while
the reported length is the first file's count, 2. -/
theorem text_lockstep_iteration_witness :
    (([["a\n", "b\n"], ["x\n", "y\n", "z\n"]] : List (List String)) ≠ [])
  ∧ (multiIter [["a\n", "b\n"], ["x\n", "y\n", "z\n"]]).length
      = minLens [["a\n", "b\n"], ["x\n", "y\n", "z\n"]]
  ∧ multiLen [["a\n", "b\n"], ["x\n", "y\n", "z\n"]]
      = (([["a\n", "b\n"], ["x\n", "y\n", "z\n"]] : List (List String)).headD []).length :=
  ⟨by decide,
    (text_lockstep_iteration [["a\n", "b\n"], ["x\n", "y\n", "z\n"]] (by decide)).1,
    (text_lockstep_iteration [["a\n", "b\n"], ["x\n", "y\n", "z\n"]] (by decide)).2.2⟩

theorem minLens_of_equal :
    ∀ (files : List (List String)) (n : Nat), files ≠ [] →
      (∀ fl ∈ files, fl.length = n) → minLens files = n
  | [], _, h, _ => absurd rfl h
  | [f], n, _, hall => by simpa [minLens] using hall f (List.mem_singleton_self f)
  | f :: s :: ss, n, _, hall => by
    have h1 : f.length = n := hall f (by simp)
    have h2 : minLens (s :: ss) = n :=
      minLens_of_equal (s :: ss) n (by simp) (fun fl hfl => hall fl (List.mem_cons_of_mem f hfl))
    simp [minLens, h1, h2]

/-! ### Claim C1 -/

/-- Claim C1: on every well-formed node tree (all embedded cache snapshots
drained, as `save` produces them) and every valid index, `get_example(i)` is
the `i`-th element of `__iter__`; likewise for a single-file text dataset,
and for a multi-file text dataset whose files obey the documented
equal-line-count precondition. -/
theorem get_matches_iterate :
    (∀ (α : Type) (d : Node α), WF d → ∀ i : Nat, i < nodeLen d →
        getEx d (i : Int) = (iterN d)[i]?)
  ∧ (∀ (lines : List String) (i : Nat), i < stLen lines →
        some (stGet lines (i : Int)) = (stIter lines)[i]?)
  ∧ (∀ (files : List (List String)) (n : Nat), files ≠ [] →
        (∀ fl ∈ files, fl.length = n) → ∀ i : Nat, i < multiLen files →
          some (multiGet files (i : Int)) = (multiIter files)[i]?) := by
  refine ⟨fun α d h i _ => getIter d h i, ?_, ?_⟩
  · intro lines i h
    rw [stGet_lt lines i h, stIter_get lines i h]
  · intro files n hne hall i hi
    have hmin : minLens files = n := minLens_of_equal files n hne hall
    have hn : multiLen files = n := by
      cases files with
      | nil => exact absurd rfl hne
      | cons f rest => simpa [multiLen] using hall f (by simp)
    rw [hn] at hi
    rw [multiIter_get files hne i (by rw [hmin]; exact hi)]
    congr 1
    unfold multiGet
    exact List.map_congr_left fun fl hfl => stGet_lt fl i (by rw [hall fl hfl]; exact hi)

/-- A concrete well-formed tree: a `ConcatDataset` of a plain `Dataset` over
`[5, 6]` and a drained `CacheDataset` over `[7]`. -/
def c1Example : Node Nat :=
  Node.concatD [Node.plain (Sum.inr [5, 6]), Node.cacheD (Sum.inr [7]) [] [7]]

/-- Claim C1 witness. -/
theorem get_matches_iterate_witness :
    WF c1Example ∧ 2 < nodeLen c1Example
  ∧ getEx c1Example ((2 : Nat) : Int) = (iterN c1Example)[2]? :=
  ⟨⟨trivial, rfl, trivial⟩, by decide,
    get_matches_iterate.1 Nat c1Example ⟨trivial, rfl, trivial⟩ 2 (by decide)⟩

end Lineflow
